import Mathlib

/-!
Verification of the "Mira" second-brain assistant (a Telegram bot written in
Python) against its natural-language specification.  The Python modules
`bot.py`, `date_parser.py`, `database.py`, `smart_search.py` and
`smart_tell.py` are shallowly embedded below: pure string processing is
translated to executable Lean functions on `List Char` / `String`, timezone
aware datetimes become `Int` timestamps (seconds in the user's zone; all
timezone conversions in the source preserve the instant and therefore vanish
in this model), SQLite tables become Lean lists, and Python's `random.choice`
becomes an explicit `Fin`-indexed selection argument.
-/

namespace Mira

/-! ## Character and string primitives

The Python source calls `str.lower()`, `str.strip()`, `str.split()` and
`str.endswith` on Russian text.  Lean's own `Char.toLower` only folds ASCII,
so lowering is modelled by an explicit table covering the alphabets that
occur in this code base (ASCII and Cyrillic, including Ё). -/

/-- Uppercase/lowercase pairs used by the model of Python `str.lower()`:
ASCII A–Z and Cyrillic А–Я plus Ё. -/
def lowerPairs : List (Char × Char) :=
  [('A', 'a'), ('B', 'b'), ('C', 'c'), ('D', 'd'), ('E', 'e'), ('F', 'f'),
   ('G', 'g'), ('H', 'h'), ('I', 'i'), ('J', 'j'), ('K', 'k'), ('L', 'l'),
   ('M', 'm'), ('N', 'n'), ('O', 'o'), ('P', 'p'), ('Q', 'q'), ('R', 'r'),
   ('S', 's'), ('T', 't'), ('U', 'u'), ('V', 'v'), ('W', 'w'), ('X', 'x'),
   ('Y', 'y'), ('Z', 'z'),
   ('А', 'а'), ('Б', 'б'), ('В', 'в'), ('Г', 'г'), ('Д', 'д'), ('Е', 'е'),
   ('Ж', 'ж'), ('З', 'з'), ('И', 'и'), ('Й', 'й'), ('К', 'к'), ('Л', 'л'),
   ('М', 'м'), ('Н', 'н'), ('О', 'о'), ('П', 'п'), ('Р', 'р'), ('С', 'с'),
   ('Т', 'т'), ('У', 'у'), ('Ф', 'ф'), ('Х', 'х'), ('Ц', 'ц'), ('Ч', 'ч'),
   ('Ш', 'ш'), ('Щ', 'щ'), ('Ъ', 'ъ'), ('Ы', 'ы'), ('Ь', 'ь'), ('Э', 'э'),
   ('Ю', 'ю'), ('Я', 'я'), ('Ё', 'ё')]

/-- Model of Python `str.lower()` on a single character. -/
def lowerChar (c : Char) : Char :=
  match lowerPairs.find? (fun p => p.1 = c) with
  | some p => p.2
  | none => c

/-- Model of Python `str.lower()`. -/
def pyLower (s : String) : String :=
  String.mk (s.data.map lowerChar)

/-- Python whitespace as used by `str.strip()` / `str.split()` on the inputs
occurring in this code base. -/
def isPySpace (c : Char) : Bool :=
  c = ' ' || c = '\t' || c = '\n' || c = '\r' || c = '\x0b' || c = '\x0c'

/-- Model of Python `str.strip()` on a character list. -/
def pyStripList (cs : List Char) : List Char :=
  ((cs.dropWhile isPySpace).reverse.dropWhile isPySpace).reverse

/-- Model of Python `str.strip()`. -/
def pyStrip (s : String) : String :=
  String.mk (pyStripList s.data)

/-- Accumulator version of whitespace splitting (Python `str.split()` with no
argument: runs of whitespace separate words, empty pieces are dropped). -/
def wordsAux : List Char → List Char → List (List Char)
  | [], acc => if acc = [] then [] else [acc.reverse]
  | c :: rest, acc =>
    if isPySpace c then
      if acc = [] then wordsAux rest [] else acc.reverse :: wordsAux rest []
    else wordsAux rest (c :: acc)

/-- Model of Python `str.split()` (no separator argument). -/
def pyWords (s : String) : List String :=
  (wordsAux s.data []).map String.mk

/-! ## `postprocess_transcript` (bot.py lines 116–140)

Restores a trailing question mark on a voice transcript when the sentence
starts with a Russian question word. -/

/-- The fixed `question_words` list from `postprocess_transcript`. -/
def questionWords : List String :=
  ["кто", "кого", "кому", "кем",
   "что", "чего", "чему", "чем",
   "где", "куда", "откуда",
   "когда", "во сколько",
   "как", "каким образом",
   "почему", "зачем", "отчего",
   "сколько", "какой", "какая", "какие",
   "есть ли", "есть у меня", "знаешь ли"]

/-- Embedding of `postprocess_transcript` from bot.py: empty input is
returned unchanged; otherwise the lowercased, stripped input is split into
words; when the first word is a question word and the stripped input does
not already end with a question mark, the stripped input plus a question
mark is returned, otherwise the input is returned unchanged. -/
def postprocessTranscript (transcript : String) : String :=
  if transcript = ("") then transcript
  else
    match pyWords (pyStrip (pyLower transcript)) with
    | [] => transcript
    | w :: _ =>
      if questionWords.contains w then
        if (pyStrip transcript).data.getLast? = some '?' then transcript
        else pyStrip transcript ++ ("?")
      else transcript

/-! Helper lemmas: word splitting commutes with per-character lowering and
is unaffected by stripping. -/

theorem isPySpace_lowerChar (c : Char) : isPySpace (lowerChar c) = isPySpace c := by
  have hall : ∀ p ∈ lowerPairs, isPySpace p.1 = false ∧ isPySpace p.2 = false := by decide
  unfold lowerChar
  cases hfind : lowerPairs.find? (fun p => p.1 = c) with
  | none => rfl
  | some p =>
    have hmem : p ∈ lowerPairs := List.mem_of_find?_eq_some hfind
    have hkey : p.1 = c := by
      have := List.find?_some hfind
      exact of_decide_eq_true this
    have h1 := (hall p hmem).1
    have h2 := (hall p hmem).2
    rw [← hkey, h1, h2]

theorem wordsAux_map_lower (cs : List Char) :
    ∀ acc, wordsAux (cs.map lowerChar) (acc.map lowerChar)
      = (wordsAux cs acc).map (List.map lowerChar) := by
  induction cs with
  | nil =>
    intro acc
    by_cases h : acc = []
    · subst h; simp [wordsAux]
    · simp [wordsAux, h, List.map_eq_nil_iff.ne.mpr h]
  | cons c rest ih =>
    intro acc
    simp only [List.map_cons, wordsAux, isPySpace_lowerChar]
    by_cases hsp : isPySpace c = true
    · by_cases h : acc = []
      · subst h
        simpa [hsp] using ih []
      · have h2 : acc.map lowerChar ≠ [] := List.map_eq_nil_iff.ne.mpr h
        simp only [hsp, if_true, h, h2, if_neg, if_false]
        rw [← List.map_reverse]
        simpa using congrArg (List.cons (acc.reverse.map lowerChar)) (ih [])
    · simp only [hsp]
      simpa using ih (c :: acc)

theorem wordsAux_all_spaces (sp : List Char) (h : ∀ c ∈ sp, isPySpace c = true) :
    ∀ acc, wordsAux sp acc = wordsAux [] acc := by
  induction sp with
  | nil => intro acc; rfl
  | cons c rest ih =>
    intro acc
    have hc : isPySpace c = true := h c (by simp)
    have hrest : ∀ d ∈ rest, isPySpace d = true := fun d hd => h d (by simp [hd])
    have hnil : wordsAux rest [] = [] := ih hrest []
    by_cases hacc : acc = []
    · subst hacc; simp [wordsAux, hc, hnil]
    · simp [wordsAux, hc, hacc, hnil]

theorem wordsAux_append_spaces (cs sp : List Char)
    (h : ∀ c ∈ sp, isPySpace c = true) :
    ∀ acc, wordsAux (cs ++ sp) acc = wordsAux cs acc := by
  induction cs with
  | nil => intro acc; simpa using wordsAux_all_spaces sp h acc
  | cons c rest ih =>
    intro acc
    by_cases hsp : isPySpace c = true
    · by_cases hacc : acc = [] <;> simp [wordsAux, hsp, hacc, ih]
    · simp [wordsAux, hsp, ih]

theorem wordsAux_dropWhile (cs : List Char) :
    wordsAux (cs.dropWhile isPySpace) [] = wordsAux cs [] := by
  induction cs with
  | nil => rfl
  | cons c rest ih =>
    by_cases hsp : isPySpace c = true
    · simpa [List.dropWhile_cons, hsp, wordsAux] using ih
    · simp [List.dropWhile_cons, hsp]

theorem wordsAux_stripList (cs : List Char) :
    wordsAux (pyStripList cs) [] = wordsAux cs [] := by
  unfold pyStripList
  set a := cs.dropWhile isPySpace with ha
  have hdecomp : a = (a.reverse.dropWhile isPySpace).reverse
      ++ (a.reverse.takeWhile isPySpace).reverse := by
    conv_lhs => rw [← List.reverse_reverse a, ← List.takeWhile_append_dropWhile (p := isPySpace) (l := a.reverse)]
    rw [List.reverse_append]
  have hsp : ∀ c ∈ (a.reverse.takeWhile isPySpace).reverse, isPySpace c = true := by
    intro c hc
    rw [List.mem_reverse] at hc
    exact List.mem_takeWhile_imp hc
  calc wordsAux (a.reverse.dropWhile isPySpace).reverse []
      = wordsAux ((a.reverse.dropWhile isPySpace).reverse
          ++ (a.reverse.takeWhile isPySpace).reverse) [] :=
        (wordsAux_append_spaces _ _ hsp []).symm
    _ = wordsAux a [] := by rw [← hdecomp]
    _ = wordsAux cs [] := wordsAux_dropWhile cs

theorem pyWords_strip_lower (s : String) :
    pyWords (pyStrip (pyLower s)) = (pyWords s).map pyLower := by
  show (wordsAux (pyStripList (s.data.map lowerChar)) []).map String.mk
      = ((wordsAux s.data []).map String.mk).map pyLower
  rw [wordsAux_stripList]
  have := wordsAux_map_lower s.data []
  simp only [List.map_nil] at this
  rw [this, List.map_map, List.map_map]
  rfl

/-- Claim C10: `postprocess_transcript` appends a question mark exactly when
the input's first whitespace-separated word, lowercased, is one of the fixed
question words and the stripped input does not already end with a question
mark; in that case it returns the stripped input followed by a question
mark, and in every other case (including the empty string) it returns the
input unchanged. -/
theorem postprocess_transcript_spec (s : String) :
    postprocessTranscript s =
      if ((pyWords s).head?.elim false (fun w => questionWords.contains (pyLower w)))
          && !((pyStrip s).data.getLast? == some '?')
      then pyStrip s ++ ("?") else s := by
  unfold postprocessTranscript
  by_cases hs : s = ("")
  · subst hs
    have : pyWords ("") = [] := rfl
    simp [this]
  · rw [pyWords_strip_lower, if_neg hs]
    cases hw : pyWords s with
    | nil => simp
    | cons w ws =>
      simp only [List.map_cons, List.head?_cons, Option.elim_some]
      by_cases hq : pyLower w ∈ questionWords
      · by_cases hl : (pyStrip s).data.getLast? = some '?'
        · simp [hq, hl]
        · simp [hq, hl]
      · simp [hq]

/-! ## Timestamps

Timezone-aware datetimes are modelled as `Int` seconds since an epoch,
expressed in the user's timezone.  `datetime.replace(hour=h, minute=m,
second=0, microsecond=0)` keeps the calendar day and overwrites the clock
time, which on timestamps is flooring to the day boundary plus the new
clock time.  1970-01-01 (day number 0) was a Thursday, and Python's
`datetime.weekday()` numbers Monday as 0, so day 0 has weekday 3. -/

/-- Seconds per day. -/
def daySecs : Int := 86400

/-- The calendar-day number of a timestamp (Python `//` floors, which for
the positive divisor 86400 coincides with Lean's Int division). -/
def dayOf (t : Int) : Int := t / daySecs

/-- Model of `dt.replace(hour=h, minute=m, second=0, microsecond=0)`. -/
def replaceClock (t : Int) (h m : Int) : Int :=
  daySecs * dayOf t + h * 3600 + m * 60

/-- Model of Python `datetime.weekday()` (Monday = 0 … Sunday = 6). -/
def weekdayOf (t : Int) : Int := (dayOf t + 3) % 7

/-! ## Relative-duration extraction (`parse_reminder_datetime`, bot.py 206–338)

The inner helpers `_normalize_unit` and `_extract_relative_delta` evaluate
hand-written regular expressions over the lowercased text after the trigger
word "через".  The regex engine's behaviour on these concrete patterns is
reproduced here by explicit scanners over `List Char`; each scanner takes a
fuel argument bounded by the input length so that every function is
structurally recursive and kernel-evaluable. -/

/-- ASCII digit test (the `\d` occurrences in the source only ever see
ASCII digits). -/
def isDigitCh (c : Char) : Bool := '0' ≤ c && c ≤ '9'

/-- Lowercase Cyrillic а–я (the regex character class `[а-я]`, which does
not include ё). -/
def isCyr (c : Char) : Bool := 'а' ≤ c && c ≤ 'я'

/-- Lowercase Cyrillic including ё (the class `[а-яё]` of `_normalize_unit`). -/
def isCyrYo (c : Char) : Bool := isCyr c || c = 'ё'

/-- Word character for the regex `\b` boundaries: letters (ASCII and
Cyrillic in both cases), digits and underscore cover every string this
code processes. -/
def isWordCh (c : Char) : Bool :=
  ('a' ≤ c && c ≤ 'z') || ('A' ≤ c && c ≤ 'Z') || isDigitCh c || c = '_'
    || ('а' ≤ c && c ≤ 'я') || ('А' ≤ c && c ≤ 'Я') || c = 'ё' || c = 'Ё'

/-- Does `pat` occur as a contiguous substring (Python `pat in s`)? -/
def hasSub (pat : List Char) : List Char → Bool
  | [] => pat.isEmpty
  | c :: rest => pat.isPrefixOf (c :: rest) || hasSub pat rest

/-- The text after the first occurrence of `pat`
(Python `s.split(pat, 1)[1]`, defined when `pat` occurs). -/
def afterFirst (pat : List Char) : List Char → Option (List Char)
  | [] => if pat.isEmpty then some [] else none
  | c :: rest =>
    if pat.isPrefixOf (c :: rest) then some ((c :: rest).drop pat.length)
    else afterFirst pat rest

/-- Numeric value of a digit run (`int(value)`). -/
def digitsToNat (ds : List Char) : Nat :=
  ds.foldl (fun acc c => acc * 10 + (c.toNat - '0'.toNat)) 0

/-- The time units of `_normalize_unit`. -/
inductive TimeKey where
  | seconds | minutes | hours | days | weeks | months | years
deriving DecidableEq

/-- The `units_map` variant sets of `_normalize_unit` (bot.py 215–229). -/
def unitsMap : List (TimeKey × List String) :=
  [(TimeKey.seconds, ["секунд", "секунда", "секунды", "секунду"]),
   (TimeKey.minutes, ["минута", "минуту", "минуты", "минут"]),
   (TimeKey.hours, ["час", "часа", "часов"]),
   (TimeKey.days, ["день", "дня", "дней", "сутки", "суток"]),
   (TimeKey.weeks, ["неделя", "неделю", "недели", "недель"]),
   (TimeKey.months, ["месяц", "месяца", "месяцев"]),
   (TimeKey.years, ["год", "года", "лет"])]

/-- Embedding of `_normalize_unit`: lowercase the word, delete everything
outside `[а-яё]`, and look the result up in the variant table. -/
def normalizeUnit (word : List Char) : Option TimeKey :=
  let cleaned := String.mk ((word.map lowerChar).filter isCyrYo)
  (unitsMap.find? (fun p => p.2.contains cleaned)).map (fun p => p.1)

/-- Match one alternative `stem[cls]*` of the unit regex at the current
position: the literal stem followed by a greedy run of `cls` characters.
Returns the matched text and the remainder. -/
def matchStemStar (stem : List Char) (cls : Char → Bool) (cs : List Char) :
    Option (List Char × List Char) :=
  if stem.isPrefixOf cs then
    let rest0 := cs.drop stem.length
    let suf := rest0.takeWhile cls
    some (stem ++ suf, rest0.drop suf.length)
  else none

/-- Match `stem[cls]+` (at least one class character), as in `дн[еяй]+`. -/
def matchStemPlus (stem : List Char) (cls : Char → Bool) (cs : List Char) :
    Option (List Char × List Char) :=
  match matchStemStar stem cls cs with
  | some (m, rest) => if m.length = stem.length then none else some (m, rest)
  | none => none

/-- The ordered alternation
`секунд[а-я]*|минут[а-я]*|час[а-я]*|дн[еяй]+|сут[а-я]*|недел[яей]*|месяц[а-я]*|год[а-я]*`
of `_extract_relative_delta`'s pair regex. -/
def matchUnitAlt (cs : List Char) : Option (List Char × List Char) :=
  matchStemStar ("секунд".data) isCyr cs
  <|> matchStemStar ("минут".data) isCyr cs
  <|> matchStemStar ("час".data) isCyr cs
  <|> matchStemPlus ("дн".data) (fun c => c = 'е' || c = 'я' || c = 'й') cs
  <|> matchStemStar ("сут".data) isCyr cs
  <|> matchStemStar ("недел".data) (fun c => c = 'я' || c = 'е' || c = 'й') cs
  <|> matchStemStar ("месяц".data) isCyr cs
  <|> matchStemStar ("год".data) isCyr cs

/-- `re.findall` for the pair regex `(\d+)\s*(<units>)`: scan left to right;
at a digit, take the maximal digit run, skip whitespace, and try the unit
alternation; on success emit the pair and continue after it, otherwise
advance one character (the next scan start the engine would try). -/
def findPairsAux : Nat → List Char → List (Nat × List Char)
  | 0, _ => []
  | _ + 1, [] => []
  | fuel + 1, c :: rest =>
    if isDigitCh c then
      let ds := (c :: rest).takeWhile isDigitCh
      let afterDs := (c :: rest).drop ds.length
      let afterWs := afterDs.dropWhile isPySpace
      match matchUnitAlt afterWs with
      | some (u, rest2) => (digitsToNat ds, u) :: findPairsAux fuel rest2
      | none => findPairsAux fuel rest
    else findPairsAux fuel rest

/-- All `(value, unit)` pairs after the trigger word. -/
def findPairs (cs : List Char) : List (Nat × List Char) :=
  findPairsAux cs.length cs

/-- Seconds contributed by one pair, following the `timedelta` sum in
`_extract_relative_delta` (months ≈ 30 days, years ≈ 365 days; an
unrecognized unit contributes nothing). -/
def pairSeconds (p : Nat × List Char) : Nat :=
  match normalizeUnit p.2 with
  | some TimeKey.seconds => p.1
  | some TimeKey.minutes => 60 * p.1
  | some TimeKey.hours => 3600 * p.1
  | some TimeKey.days => 86400 * p.1
  | some TimeKey.weeks => 604800 * p.1
  | some TimeKey.months => 30 * 86400 * p.1
  | some TimeKey.years => 365 * 86400 * p.1
  | none => 0

/-! The `singular_patterns` fallback of `_extract_relative_delta` searches
`\b<pattern>\b` for nine fixed patterns.  Each pattern is embedded as a
matcher returning the candidate remainders (in the regex engine's
backtracking order); `searchWB` scans for a match whose start and end lie
on word boundaries. -/

/-- Match a literal pattern, e.g. `день`. -/
def matchLit (lit : List Char) (cs : List Char) : List (List Char) :=
  if lit.isPrefixOf cs then [cs.drop lit.length] else []

/-- Match `lit[cls]`, a literal followed by exactly one class character,
e.g. `секунд[ау]`. -/
def matchLitClass (lit : List Char) (cls : Char → Bool) (cs : List Char) :
    List (List Char) :=
  if lit.isPrefixOf cs then
    match cs.drop lit.length with
    | d :: rest => if cls d then [rest] else []
    | [] => []
  else []

/-- Match `пол\s*-?\s*часа` (the wildcard part before the fixed tail is
deterministic because neither spaces nor the dash can begin `часа`). -/
def matchPolChasa (cs : List Char) : List (List Char) :=
  if ("пол".data).isPrefixOf cs then
    let r1 := (cs.drop ("пол".data).length).dropWhile isPySpace
    let r2 := match r1 with
      | '-' :: rest => rest.dropWhile isPySpace
      | _ => r1
    if ("часа".data).isPrefixOf r2 then [r2.drop ("часа".data).length] else []
  else []

/-- Match `час(ик)?`: the greedy engine tries the long form first. -/
def matchChasIk (cs : List Char) : List (List Char) :=
  if ("час".data).isPrefixOf cs then
    let rest := cs.drop ("час".data).length
    (if ("ик".data).isPrefixOf rest then [rest.drop ("ик".data).length] else []) ++ [rest]
  else []

/-- Does a candidate remainder satisfy the closing `\b` (all patterns end
in a word character, so the next character must be absent or non-word)? -/
def todEndOk (rem : List Char) : Bool :=
  match rem with
  | [] => true
  | d :: _ => !isWordCh d

/-- Scan for a `\b<pattern>\b` match: `prevWord` records whether the
previous character is a word character (false at the start of the string).
All patterns begin with a word character, so the opening boundary requires
the previous character to be non-word. -/
def searchWB (m : List Char → List (List Char)) : Bool → List Char → Bool
  | _, [] => false
  | prevWord, c :: rest =>
    (!prevWord && (m (c :: rest)).any todEndOk) || searchWB m (isWordCh c) rest

/-- The `singular_patterns` table (bot.py 257–267), with each duration in
seconds. -/
def singularPatterns : List ((List Char → List (List Char)) × Nat) :=
  [(matchPolChasa, 1800),
   (matchLitClass ("секунд".data) (fun c => c = 'а' || c = 'у'), 1),
   (matchLitClass ("минут".data) (fun c => c = 'а' || c = 'у'), 60),
   (matchChasIk, 3600),
   (matchLitClass ("сутк".data) (fun c => c = 'а' || c = 'и'), 86400),
   (matchLit ("день".data), 86400),
   (matchLitClass ("недел".data) (fun c => c = 'я' || c = 'ю'), 604800),
   (matchLit ("месяц".data), 2592000),
   (matchLit ("год".data), 31536000)]

/-- Sum the durations of every singular pattern that matches (the source
adds the delta of each matching pattern, not only the first). -/
def singularSeconds (after : List Char) : Nat :=
  singularPatterns.foldl (fun acc p => if searchWB p.1 false after then acc + p.2 else acc) 0

/-- Embedding of `_extract_relative_delta` (bot.py 231–272): `none` when no
positive duration is recognized after "через", otherwise the duration in
seconds. -/
def extractRelativeDelta (t : List Char) : Option Nat :=
  if hasSub ("через".data) t then
    match afterFirst ("через".data) t with
    | none => none
    | some after =>
      let total := ((findPairs after).map pairSeconds).foldl (fun a b => a + b) 0
      let total2 := if total = 0 then singularSeconds after else total
      if 0 < total2 then some total2 else none
  else none

/-! ## The explicit clock clause `\bв\s*(\d{1,2})(?::(\d{2}))?\s*(утра|дня|вечера|ночи)?\b`
(bot.py line 293). -/

/-- The time-of-day alternation, in the regex's order. -/
def todWords : List String := ["утра", "дня", "вечера", "ночи"]

/-- Try `\s*(утра|дня|вечера|ночи)?\b` with exactly `k` whitespace
characters consumed (the engine's backtracking tries larger `k` first);
`k = 0` means the previous character is still a digit, otherwise it is a
space. -/
def clockTailAt (k : Nat) (cs : List Char) : Option (Option String) :=
  let cs' := cs.drop k
  match todWords.find? (fun w => (w.data).isPrefixOf cs' && todEndOk (cs'.drop w.length)) with
  | some w => some (some w)
  | none =>
    let prevW : Bool := k = 0
    let nextW : Bool :=
      match cs' with
      | [] => false
      | d :: _ => isWordCh d
    if prevW != nextW then some none else none

/-- Backtrack over the whitespace count, greedily from `k` down to zero. -/
def clockTail : Nat → List Char → Option (Option String)
  | 0, cs => clockTailAt 0 cs
  | k + 1, cs =>
    match clockTailAt (k + 1) cs with
    | some r => some r
    | none => clockTail k cs

/-- Run the clause tail from the position right after the digits. -/
def clockTailFrom (cs : List Char) : Option (Option String) :=
  clockTail (cs.takeWhile isPySpace).length cs

/-- Given the captured hour, try the optional `:(\d{2})` minutes (greedy)
and then the tail. -/
def tryClockFrom (hour : Nat) (cs : List Char) : Option (Nat × Nat × Option String) :=
  let withColon : Option (Nat × Nat × Option String) :=
    match cs with
    | ':' :: m1 :: m2 :: rest =>
      if isDigitCh m1 && isDigitCh m2 then
        (clockTailFrom rest).map (fun tod => (hour, digitsToNat [m1, m2], tod))
      else none
    | _ => none
  withColon <|> (clockTailFrom cs).map (fun tod => (hour, 0, tod))

/-- After a boundary-preceded `в`: skip whitespace, read one or two digits
(two first, backtracking to one), then the rest of the clause. -/
def matchClockAfterV (cs : List Char) : Option (Nat × Nat × Option String) :=
  let afterWs := cs.dropWhile isPySpace
  match afterWs with
  | [] => none
  | d1 :: rest1 =>
    if isDigitCh d1 then
      match rest1 with
      | d2 :: rest2 =>
        if isDigitCh d2 then
          tryClockFrom (digitsToNat [d1, d2]) rest2 <|> tryClockFrom (digitsToNat [d1]) rest1
        else tryClockFrom (digitsToNat [d1]) rest1
      | [] => tryClockFrom (digitsToNat [d1]) []
    else none

/-- Scan the text for the first full clock-clause match. -/
def findClockAux : Bool → List Char → Option (Nat × Nat × Option String)
  | _, [] => none
  | prevWord, c :: rest =>
    if !prevWord && c = 'в' then
      match matchClockAfterV rest with
      | some r => some r
      | none => findClockAux (isWordCh c) rest
    else findClockAux (isWordCh c) rest

/-- Model of `re.search` for the clock clause, returning
(hour, minute, time-of-day qualifier). -/
def findClock (cs : List Char) : Option (Nat × Nat × Option String) :=
  findClockAux false cs

/-! ## `parse_reminder_datetime` (bot.py 206–338)

The function receives the date parser as an injected dependency and only
reads `base['datetime']` and `base['time_info']` from it; the embedding
therefore takes the parser's output as an explicit argument `base`, so all
theorems below quantify over every possible date-parser result. -/

/-- The two fields of `date_parser.parse_text` that
`parse_reminder_datetime` consumes. -/
structure ParseBase where
  baseDt : Option Int
  timeInfo : Option String

/-- Which branch produced the base datetime (`dt_source` in the source). -/
inductive DtSource where
  | relative | parsed | fallbackSrc
deriving DecidableEq

/-- Embedding of `parse_reminder_datetime`. -/
def parseReminderDatetime (now : Int) (base : ParseBase) (text : String) : Int :=
  let t := (pyLower text).data
  let rel := extractRelativeDelta t
  let dtSrc : Int × DtSource :=
    match rel with
    | some d => (now + (d : Int), DtSource.relative)
    | none =>
      match base.baseDt with
      | some b => (b, DtSource.parsed)
      | none =>
        (if hasSub ("завтра".data) t then now + daySecs else now, DtSource.fallbackSrc)
  let dt := dtSrc.1
  let src := dtSrc.2
  match findClock t with
  | some (h, m, tod) =>
    let hh : Nat :=
      if tod = some ("вечера") || tod = some ("ночи") then
        if 1 ≤ h && h ≤ 11 then h + 12 else h
      else if tod = some ("дня") then
        if 1 ≤ h && h ≤ 11 then h + 12 else h
      else h
    replaceClock dt (hh : Int) (m : Int)
  | none =>
    if src ≠ DtSource.relative then
      match base.timeInfo with
      | some ti =>
        if ti = ("вечером") then replaceClock dt 19 0
        else if ti = ("утром") then replaceClock dt 9 0
        else if ti = ("днем") then replaceClock dt 13 0
        else if ti = ("ночью") then replaceClock dt 23 0
        else replaceClock dt 10 0
      | none => replaceClock dt 10 0
    else
      match base.timeInfo, rel with
      | some ti, some d =>
        if 43200 ≤ d then
          if ti = ("вечером") then replaceClock dt 19 0
          else if ti = ("утром") then replaceClock dt 9 0
          else if ti = ("днем") then replaceClock dt 13 0
          else if ti = ("ночью") then replaceClock dt 23 0
          else dt
        else dt
      | _, _ => dt

/-- Claim C1 (counterexample): the claim quantifies over every phrase
containing "через 20 минут", but a phrase that additionally carries an
explicit clock clause "в 7 вечера" does not resolve to now + 20 minutes:
at noon (timestamp 43200) the result is 19:00 (68400), not 12:20. -/
theorem parse_reminder_minutes_counterexample :
    hasSub (("через 20 минут").data) ((pyLower ("напомни мне через 20 минут в 7 вечера")).data) = true
    ∧ parseReminderDatetime 43200 ⟨none, none⟩ ("напомни мне через 20 минут в 7 вечера") = 68400
    ∧ (68400 : Int) ≠ 43200 + 60 * 20 :=
  ⟨by decide, by decide, by decide⟩

/-- Claim C1 (amended): for every reference time, every date-parser output
`base` (hence independently of any date-word in the phrase) and every
phrase whose relative extraction yields exactly N minutes (N < 720) and
which contains no explicit clock clause, the resolved trigger timestamp is
now + N minutes. -/
theorem parse_reminder_relative_minutes (now : Int) (base : ParseBase) (text : String)
    (n : Nat)
    (hrel : extractRelativeDelta ((pyLower text).data) = some (60 * n))
    (hlt : 60 * n < 43200)
    (hclock : findClock ((pyLower text).data) = none) :
    parseReminderDatetime now base text = now + 60 * (n : Int) := by
  cases hti : base.timeInfo with
  | none =>
    simp [parseReminderDatetime, hrel, hclock, hti]
  | some ti =>
    simp [parseReminderDatetime, hrel, hclock, hti, Nat.not_le.mpr hlt]

/-- Claim C1 (witness): a phrase containing the date-word "завтра", with an
adversarial date-parser output (a parsed datetime and a time-of-day word),
still resolves to now + 20 minutes. -/
theorem parse_reminder_relative_minutes_witness :
    extractRelativeDelta ((pyLower ("завтра напомни мне через 20 минут")).data) = some (60 * 20)
    ∧ 60 * 20 < 43200
    ∧ findClock ((pyLower ("завтра напомни мне через 20 минут")).data) = none
    ∧ parseReminderDatetime 0 ⟨some 777777, some ("вечером")⟩ ("завтра напомни мне через 20 минут")
        = 0 + 60 * (20 : Int) :=
  ⟨by decide, by decide, by decide,
    parse_reminder_relative_minutes 0 ⟨some 777777, some ("вечером")⟩
      ("завтра напомни мне через 20 минут") 20 (by decide) (by decide) (by decide)⟩

/-! ## Weekday resolution (`SmartDateParser._get_weekday_date`,
date_parser.py 250–262)

The parser maps a weekday name found in the phrase to its number
(Monday = 0 … Sunday = 6) and calls `_get_weekday_date`, which keeps the
current clock time and advances the calendar day. -/

/-- Embedding of `_get_weekday_date`: `days_ahead = target - today.weekday()`;
if `days_ahead <= 0` add 7; return `today + timedelta(days=days_ahead)`. -/
def getWeekdayDate (today : Int) (targetWeekday : Int) : Int :=
  let daysAhead := targetWeekday - weekdayOf today
  let daysAhead2 := if daysAhead ≤ 0 then daysAhead + 7 else daysAhead
  today + daysAhead2 * daySecs

/-- Claim C3 (counterexample): when today already is the named weekday the
resolver does not return today: day 0 is a Thursday (weekday 3), yet
resolving "Thursday" at midnight of day 0 yields day 7, a different
calendar day. -/
theorem get_weekday_date_today_counterexample :
    weekdayOf 0 = 3
    ∧ getWeekdayDate 0 3 = 7 * daySecs
    ∧ dayOf (getWeekdayDate 0 3) ≠ dayOf 0 :=
  ⟨by decide, by decide, by decide⟩

/-- Claim C3 (amended): for every reference time and weekday number, the
resolved date's weekday equals the named day and lies strictly in the
future, between one and seven days ahead — never today and never in the
past (when today is the named weekday, the resolver picks the same weekday
of the next week). -/
theorem get_weekday_date_spec (today target : Int)
    (h0 : 0 ≤ target) (h7 : target < 7) :
    weekdayOf (getWeekdayDate today target) = target
    ∧ daySecs ≤ getWeekdayDate today target - today
    ∧ getWeekdayDate today target - today ≤ 7 * daySecs
    ∧ dayOf today < dayOf (getWeekdayDate today target) := by
  unfold getWeekdayDate weekdayOf dayOf daySecs
  simp only []
  split_ifs with h <;> omega

/-- Claim C3 (witness): resolving weekday 1 (Tuesday) from timestamp 0
(Thursday) gives a Tuesday between one and seven days ahead. -/
theorem get_weekday_date_spec_witness :
    weekdayOf (getWeekdayDate 0 1) = 1
    ∧ daySecs ≤ getWeekdayDate 0 1 - 0
    ∧ getWeekdayDate 0 1 - 0 ≤ 7 * daySecs
    ∧ dayOf 0 < dayOf (getWeekdayDate 0 1) :=
  get_weekday_date_spec 0 1 (by decide) (by decide)

/-! ## Reminder scheduling and delivery
(`schedule_reminder` bot.py 352–385, `send_reminder_job` bot.py 340–350,
`mark_reminder_completed` database.py 341–354)

`schedule_reminder` converts the stored trigger to the job queue's
timezone — an instant-preserving operation, so timestamps compare directly
— and registers a one-shot job named `reminder_<id>` unless the trigger is
absent or not in the future.  Firing a one-shot job consumes it; the
callback sends the message and, only if sending succeeded, marks the
reminder completed. -/

/-- A reminder row as handed to `schedule_reminder`. -/
structure ReminderRow where
  rid : Nat
  userId : Nat
  rtext : String
  triggerDate : Option Int
deriving DecidableEq

/-- A registered one-shot job (`job_queue.run_once` arguments). -/
structure Job where
  jobName : String
  runAt : Int
  userId : Nat
  reminderId : Nat
  jtext : String
deriving DecidableEq

/-- The unique job name derived from the reminder id. -/
def reminderJobName (i : Nat) : String := ("reminder_") ++ toString i

/-- Embedding of `schedule_reminder`: no trigger → no-op; trigger at or
before now (compared in the queue's timezone) → no-op; otherwise register
exactly one job named after the reminder id. -/
def scheduleReminder (now : Int) (jobs : List Job) (row : ReminderRow) : List Job :=
  match row.triggerDate with
  | none => jobs
  | some runAt =>
    if runAt ≤ now then jobs
    else jobs ++ [⟨reminderJobName row.rid, runAt, row.userId, row.rid, row.rtext⟩]

/-- Reminder lifecycle status. -/
inductive RStatus where
  | active | completed
deriving DecidableEq

/-- Scheduler-side system state: registered jobs, per-reminder status, and
the log of successful deliveries. -/
structure SchedState where
  jobs : List Job
  statuses : Nat → RStatus
  delivered : List Nat

/-- Embedding of `DatabaseManager.mark_reminder_completed`. -/
def markReminderCompleted (st : Nat → RStatus) (i : Nat) : Nat → RStatus :=
  fun n => if n = i then RStatus.completed else st n

/-- Embedding of `send_reminder_job`: on successful delivery the message is
recorded and the reminder marked completed; a delivery failure is caught
and logged, leaving both the status and the delivery log unchanged. -/
def sendReminderJob (ok : Bool) (s : SchedState) (j : Job) : SchedState :=
  if ok then
    ⟨s.jobs, markReminderCompleted s.statuses j.reminderId, s.delivered ++ [j.reminderId]⟩
  else s

/-- Firing a registered one-shot job: the queue consumes the job and runs
the callback; firing an unregistered job does nothing. -/
def fireJob (s : SchedState) (j : Job) (ok : Bool) : SchedState :=
  if s.jobs.contains j then
    sendReminderJob ok ⟨s.jobs.erase j, s.statuses, s.delivered⟩ j
  else s

/-- Run a sequence of fire events. -/
def runTrace (s : SchedState) : List (Job × Bool) → SchedState
  | [] => s
  | e :: rest => runTrace (fireJob s e.1 e.2) rest

/-- Number of registered jobs for a reminder id. -/
def jobsFor (s : SchedState) (i : Nat) : Nat :=
  s.jobs.countP (fun j => j.reminderId = i)

/-- Number of successful deliveries for a reminder id. -/
def deliveredFor (s : SchedState) (i : Nat) : Nat :=
  s.delivered.countP (fun n => n = i)

/-- Number of jobs carrying a given name. -/
def namedCount (jobs : List Job) (nm : String) : Nat :=
  jobs.countP (fun j => j.jobName = nm)

theorem countP_erase_of_mem {α : Type} [DecidableEq α] (p : α → Bool) (a : α) :
    ∀ l : List α, a ∈ l →
      (l.erase a).countP p + (if p a then 1 else 0) = l.countP p := by
  intro l
  induction l with
  | nil => intro h; cases h
  | cons b rest ih =>
    intro hmem
    by_cases hba : b = a
    · subst hba
      rw [List.erase_cons_head]
      by_cases hp : p b = true <;> simp [List.countP_cons, hp]
    · have hmem2 : a ∈ rest := by
        cases List.mem_cons.mp hmem with
        | inl h => exact absurd h.symm hba
        | inr h => exact h
      rw [List.erase_cons, if_neg (by simpa using hba)]
      simp only [List.countP_cons]
      have := ih hmem2
      omega

theorem fireJob_inv (s : SchedState) (j : Job) (ok : Bool) (i : Nat)
    (h : jobsFor s i + deliveredFor s i ≤ 1) :
    jobsFor (fireJob s j ok) i + deliveredFor (fireJob s j ok) i ≤ 1 := by
  unfold fireJob
  by_cases hmem : j ∈ s.jobs
  · have hc : s.jobs.contains j = true := by simpa using hmem
    have herase := countP_erase_of_mem (fun k => decide (k.reminderId = i)) j s.jobs hmem
    rw [if_pos hc]
    unfold jobsFor deliveredFor at h ⊢
    cases ok with
    | true =>
      simp only [sendReminderJob, if_true, List.countP_append]
      by_cases hji : j.reminderId = i
      · simp only [hji, decide_true_eq_true, decide_True, if_pos] at herase ⊢
        simp only [List.countP_cons, List.countP_nil, decide_True, if_pos]
        omega
      · simp only [hji, decide_False, if_neg, Bool.false_eq_true, not_false_eq_true,
          add_zero] at herase
        simp only [List.countP_cons, List.countP_nil, hji, decide_False,
          Bool.false_eq_true, if_false, add_zero]
        omega
    | false =>
      simp only [sendReminderJob, Bool.false_eq_true, if_false]
      by_cases hji : j.reminderId = i
      · simp only [hji, decide_True, if_pos] at herase
        omega
      · simp only [hji, decide_False, Bool.false_eq_true, if_neg, not_false_eq_true,
          add_zero] at herase
        omega
  · rw [if_neg (by simpa using hmem)]
    exact h

theorem runTrace_inv (i : Nat) :
    ∀ (trace : List (Job × Bool)) (s : SchedState),
      jobsFor s i + deliveredFor s i ≤ 1 →
      jobsFor (runTrace s trace) i + deliveredFor (runTrace s trace) i ≤ 1 := by
  intro trace
  induction trace with
  | nil => intro s h; exact h
  | cons e rest ih =>
    intro s h
    exact ih (fireJob s e.1 e.2) (fireJob_inv s e.1 e.2 i h)

/-- Claim C2: (1) a reminder whose trigger is at or before now is not
scheduled; (2) a future trigger registers exactly one job, under the name
derived from the reminder id; (3) firing the job with a successful delivery
marks the reminder completed and records one delivery, while a failed
delivery leaves the status and the delivery log unchanged; (4) from any
state holding at most one pending job or past delivery for the reminder,
no sequence of fire events ever delivers it more than once. -/
theorem schedule_reminder_spec (now tr : Int) (row : ReminderRow) (jobs : List Job)
    (s : SchedState) (j : Job) (trace : List (Job × Bool)) :
    (row.triggerDate = some tr → tr ≤ now → scheduleReminder now jobs row = jobs)
    ∧ (row.triggerDate = some tr → now < tr →
        scheduleReminder now jobs row
          = jobs ++ [⟨reminderJobName row.rid, tr, row.userId, row.rid, row.rtext⟩]
        ∧ namedCount (scheduleReminder now jobs row) (reminderJobName row.rid)
          = namedCount jobs (reminderJobName row.rid) + 1)
    ∧ (j ∈ s.jobs →
        (fireJob s j true).statuses j.reminderId = RStatus.completed
        ∧ (fireJob s j true).delivered = s.delivered ++ [j.reminderId]
        ∧ (fireJob s j false).statuses = s.statuses
        ∧ (fireJob s j false).delivered = s.delivered)
    ∧ (jobsFor s j.reminderId + deliveredFor s j.reminderId ≤ 1 →
        deliveredFor (runTrace s trace) j.reminderId ≤ 1) := by
  refine ⟨?_, ?_, ?_, ?_⟩
  · intro h hle
    simp [scheduleReminder, h, hle]
  · intro h hlt
    have hnle : ¬ tr ≤ now := not_le.mpr hlt
    constructor
    · simp [scheduleReminder, h, hnle]
    · simp [scheduleReminder, h, hnle, namedCount, List.countP_append, List.countP_cons]
  · intro hmem
    have hc : s.jobs.contains j := by simpa using hmem
    refine ⟨?_, ?_, ?_, ?_⟩
    · simp [fireJob, hmem, hc, sendReminderJob, markReminderCompleted]
    · simp [fireJob, hmem, hc, sendReminderJob]
    · simp [fireJob, hmem, hc, sendReminderJob]
    · simp [fireJob, hmem, hc, sendReminderJob]
  · intro h
    have := runTrace_inv j.reminderId trace s h
    omega

/-- Claim C2 (witness): a concrete reminder is skipped when its trigger is
in the past, registers one named job when in the future, completes on a
successful fire, and is delivered at most once over a two-event trace. -/
theorem schedule_reminder_spec_witness :
    (scheduleReminder 200 [] ⟨5, 42, ("позвонить маме"), some 100⟩ = [])
    ∧ scheduleReminder 0 [] ⟨5, 42, ("позвонить маме"), some 100⟩
        = [⟨reminderJobName 5, 100, 42, 5, ("позвонить маме")⟩]
    ∧ (fireJob ⟨[⟨reminderJobName 5, 100, 42, 5, ("позвонить маме")⟩], fun _ => RStatus.active, []⟩
         ⟨reminderJobName 5, 100, 42, 5, ("позвонить маме")⟩ true).statuses 5 = RStatus.completed
    ∧ deliveredFor
        (runTrace ⟨[⟨reminderJobName 5, 100, 42, 5, ("позвонить маме")⟩], fun _ => RStatus.active, []⟩
          [(⟨reminderJobName 5, 100, 42, 5, ("позвонить маме")⟩, true),
           (⟨reminderJobName 5, 100, 42, 5, ("позвонить маме")⟩, true)]) 5 ≤ 1 := by
  refine ⟨?_, ?_, ?_, ?_⟩
  · exact (schedule_reminder_spec 200 100 ⟨5, 42, ("позвонить маме"), some 100⟩ []
      ⟨[], fun _ => RStatus.active, []⟩ ⟨reminderJobName 5, 100, 42, 5, ("позвонить маме")⟩ []).1
      rfl (by decide)
  · exact ((schedule_reminder_spec 0 100 ⟨5, 42, ("позвонить маме"), some 100⟩ []
      ⟨[], fun _ => RStatus.active, []⟩ ⟨reminderJobName 5, 100, 42, 5, ("позвонить маме")⟩ []).2.1
      rfl (by decide)).1
  · exact ((schedule_reminder_spec 0 100 ⟨5, 42, ("позвонить маме"), some 100⟩ []
      ⟨[⟨reminderJobName 5, 100, 42, 5, ("позвонить маме")⟩], fun _ => RStatus.active, []⟩
      ⟨reminderJobName 5, 100, 42, 5, ("позвонить маме")⟩ []).2.2.1
      (by simp)).1
  · exact (schedule_reminder_spec 0 100 ⟨5, 42, ("позвонить маме"), some 100⟩ []
      ⟨[⟨reminderJobName 5, 100, 42, 5, ("позвонить маме")⟩], fun _ => RStatus.active, []⟩
      ⟨reminderJobName 5, 100, 42, 5, ("позвонить маме")⟩
      [(⟨reminderJobName 5, 100, 42, 5, ("позвонить маме")⟩, true),
       (⟨reminderJobName 5, 100, 42, 5, ("позвонить маме")⟩, true)]).2.2.2
      (by simp [jobsFor, deliveredFor])

/-! ## Entity and tag storage (database.py)

`add_entity` (139–169) and `add_tag` (216–243) lowercase and strip the
incoming name, `INSERT OR IGNORE` the row, and return the id found by a
subsequent SELECT on the key triple/pair.  The tables are modelled as lists
with an autoincrement counter. -/

/-- The normalization applied before storage: `name.lower().strip()`. -/
def normalizeStored (s : String) : String := pyStrip (pyLower s)

/-- A row of the `entities` table. -/
structure EntityRow where
  eid : Nat
  userId : Nat
  ename : String
  etype : String
deriving DecidableEq

/-- The `entities` table with its autoincrement counter. -/
structure EntityTable where
  rows : List EntityRow
  nextId : Nat

/-- The key predicate `user_id = ? AND name = ? AND type = ?`. -/
def entityKeyMatches (u : Nat) (n ty : String) (r : EntityRow) : Bool :=
  r.userId == u && r.ename == n && r.etype == ty

/-- Modelled from the spec: `INSERT OR IGNORE` on `entities` keys on the
UNIQUE (owner, normalized name, type) constraint declared in the schema
file `database_schema.sql`, which `DatabaseManager.init_database` loads but
which is not part of the source tree; the spec states this uniqueness
invariant explicitly.  A duplicate triple is ignored, otherwise the row is
appended with the next id. -/
def insertOrIgnoreEntity (t : EntityTable) (u : Nat) (n ty : String) : EntityTable :=
  if t.rows.any (entityKeyMatches u n ty) then t
  else ⟨t.rows ++ [⟨t.nextId, u, n, ty⟩], t.nextId + 1⟩

/-- Embedding of `DatabaseManager.add_entity`: normalize, insert-or-ignore,
then SELECT the id for the key triple (the `cursor.lastrowid` branch is the
unreachable fallback when the SELECT finds nothing). -/
def addEntity (t : EntityTable) (u : Nat) (name ty : String) : Nat × EntityTable :=
  let n := normalizeStored name
  let t2 := insertOrIgnoreEntity t u n ty
  match t2.rows.find? (entityKeyMatches u n ty) with
  | some r => (r.eid, t2)
  | none => (t2.nextId, t2)

/-- Number of stored rows for a key triple. -/
def countMatching (t : EntityTable) (u : Nat) (n ty : String) : Nat :=
  t.rows.countP (entityKeyMatches u n ty)

/-- A row of the `tags` table. -/
structure TagRow where
  tid : Nat
  userId : Nat
  tname : String
  color : Option String
deriving DecidableEq

/-- The `tags` table with its autoincrement counter. -/
structure TagTable where
  rows : List TagRow
  nextId : Nat

/-- The key predicate `user_id = ? AND name = ?`. -/
def tagKeyMatches (u : Nat) (n : String) (r : TagRow) : Bool :=
  r.userId == u && r.tname == n

/-- Modelled from the spec: `INSERT OR IGNORE` on `tags` keys on the UNIQUE
(owner, normalized name) constraint from the schema file (not in the source
tree; the spec states uniqueness on that pair). -/
def insertOrIgnoreTag (t : TagTable) (u : Nat) (n : String) (color : Option String) :
    TagTable :=
  if t.rows.any (tagKeyMatches u n) then t
  else ⟨t.rows ++ [⟨t.nextId, u, n, color⟩], t.nextId + 1⟩

/-- Embedding of `DatabaseManager.add_tag`. -/
def addTag (t : TagTable) (u : Nat) (name : String) (color : Option String) :
    Nat × TagTable :=
  let n := normalizeStored name
  let t2 := insertOrIgnoreTag t u n color
  match t2.rows.find? (tagKeyMatches u n) with
  | some r => (r.tid, t2)
  | none => (t2.nextId, t2)

/-- Claim C4: calling `add_entity` twice with the same arguments returns
the same identifier both times, leaves exactly one stored row for the
(owner, normalized name, type) triple, and the second call does not change
the table, provided the table respects the uniqueness constraint
beforehand. -/
theorem add_entity_idempotent (t : EntityTable) (u : Nat) (name ty : String)
    (hwf : countMatching t u (normalizeStored name) ty ≤ 1) :
    (addEntity t u name ty).1 = (addEntity (addEntity t u name ty).2 u name ty).1
    ∧ countMatching (addEntity (addEntity t u name ty).2 u name ty).2
        u (normalizeStored name) ty = 1
    ∧ (addEntity (addEntity t u name ty).2 u name ty).2.rows
        = (addEntity t u name ty).2.rows := by
  set n := normalizeStored name with hn
  by_cases hany : t.rows.any (entityKeyMatches u n ty) = true
  · have hins : insertOrIgnoreEntity t u n ty = t := by
      simp [insertOrIgnoreEntity, hany]
    have hone : countMatching t u n ty = 1 := by
      have hpos : 0 < countMatching t u n ty := by
        unfold countMatching
        rw [List.countP_pos_iff]
        simpa using List.any_eq_true.mp hany
      omega
    unfold addEntity
    simp only []
    rw [hins]
    cases hfind : t.rows.find? (entityKeyMatches u n ty) with
    | none =>
      exfalso
      obtain ⟨x, hx, hpx⟩ := List.any_eq_true.mp hany
      exact absurd hpx (by simpa using List.find?_eq_none.mp hfind x hx)
    | some r =>
      simp [hins, hfind, hone]
  · have hnone : t.rows.find? (entityKeyMatches u n ty) = none := by
      rw [List.find?_eq_none]
      intro x hx
      intro hpx
      exact hany (List.any_eq_true.mpr ⟨x, hx, hpx⟩)
    have hzero : t.rows.countP (entityKeyMatches u n ty) = 0 :=
      List.countP_eq_zero.mpr (fun x hx hpx => hany (List.any_eq_true.mpr ⟨x, hx, hpx⟩))
    have hnew : entityKeyMatches u n ty ⟨t.nextId, u, n, ty⟩ = true := by
      simp [entityKeyMatches]
    have hins : insertOrIgnoreEntity t u n ty
        = ⟨t.rows ++ [⟨t.nextId, u, n, ty⟩], t.nextId + 1⟩ := by
      simp [insertOrIgnoreEntity, hany]
    have hfind2 : (t.rows ++ [(⟨t.nextId, u, n, ty⟩ : EntityRow)]).find? (entityKeyMatches u n ty)
        = some ⟨t.nextId, u, n, ty⟩ := by
      rw [List.find?_append, hnone]
      simp [List.find?_cons, hnew]
    have hany2 : (t.rows ++ [(⟨t.nextId, u, n, ty⟩ : EntityRow)]).any (entityKeyMatches u n ty)
        = true := by
      refine List.any_eq_true.mpr ⟨⟨t.nextId, u, n, ty⟩, ?_, hnew⟩
      simp
    unfold addEntity
    simp only []
    rw [hins]
    simp only [hfind2]
    have hins2 : insertOrIgnoreEntity ⟨t.rows ++ [⟨t.nextId, u, n, ty⟩], t.nextId + 1⟩ u n ty
        = ⟨t.rows ++ [⟨t.nextId, u, n, ty⟩], t.nextId + 1⟩ := by
      simp [insertOrIgnoreEntity, hany2]
    rw [hins2]
    simp only [hfind2]
    refine ⟨trivial, ?_, trivial⟩
    unfold countMatching
    simp [List.countP_append, hzero, List.countP_cons, hnew]

/-- Claim C4 (witness): inserting the same entity twice into an empty table
returns id 0 both times and leaves one row. -/
theorem add_entity_idempotent_witness :
    (addEntity ⟨[], 0⟩ 7 ("Вася") ("person")).1
      = (addEntity (addEntity ⟨[], 0⟩ 7 ("Вася") ("person")).2 7 ("Вася") ("person")).1
    ∧ countMatching (addEntity (addEntity ⟨[], 0⟩ 7 ("Вася") ("person")).2 7 ("Вася") ("person")).2
        7 (normalizeStored ("Вася")) ("person") = 1
    ∧ (addEntity (addEntity ⟨[], 0⟩ 7 ("Вася") ("person")).2 7 ("Вася") ("person")).2.rows
        = (addEntity ⟨[], 0⟩ 7 ("Вася") ("person")).2.rows :=
  add_entity_idempotent ⟨[], 0⟩ 7 ("Вася") ("person") (by decide)

/-! Normalization is idempotent: lowering twice, stripping twice, and their
composition all stabilize.  These lemmas support the storage invariant of
claim C6. -/

theorem lowerChar_idem (c : Char) : lowerChar (lowerChar c) = lowerChar c := by
  have hall : ∀ p ∈ lowerPairs, lowerPairs.find? (fun q => q.1 = p.2) = none := by decide
  cases hfind : lowerPairs.find? (fun p => p.1 = c) with
  | none =>
    have h1 : lowerChar c = c := by unfold lowerChar; rw [hfind]
    rw [h1, h1]
  | some p =>
    have h1 : lowerChar c = p.2 := by unfold lowerChar; rw [hfind]
    have h2 : lowerChar p.2 = p.2 := by
      unfold lowerChar
      rw [hall p (List.mem_of_find?_eq_some hfind)]
    rw [h1, h2]

theorem dropWhile_dropWhile (p : Char → Bool) (l : List Char) :
    (l.dropWhile p).dropWhile p = l.dropWhile p := by
  induction l with
  | nil => rfl
  | cons c rest ih =>
    by_cases hp : p c = true
    · simpa [List.dropWhile_cons, hp] using ih
    · simp [List.dropWhile_cons, hp]

theorem stripList_idem (cs : List Char) :
    pyStripList (pyStripList cs) = pyStripList cs := by
  set a := cs.dropWhile isPySpace with ha
  have haa : a.dropWhile isPySpace = a := dropWhile_dropWhile isPySpace cs
  have hs1 : pyStripList cs = (a.reverse.dropWhile isPySpace).reverse := rfl
  have hdecomp : a = pyStripList cs ++ (a.reverse.takeWhile isPySpace).reverse := by
    rw [hs1]
    conv_lhs => rw [← List.reverse_reverse a,
      ← List.takeWhile_append_dropWhile (p := isPySpace) (l := a.reverse)]
    rw [List.reverse_append]
  have hlead : (pyStripList cs).dropWhile isPySpace = pyStripList cs := by
    cases hcase : pyStripList cs with
    | nil => rfl
    | cons c s1t =>
      cases hpc : isPySpace c with
      | false => simp [List.dropWhile_cons, hpc]
      | true =>
        exfalso
        have ha2 : a = c :: (s1t ++ (a.reverse.takeWhile isPySpace).reverse) := by
          conv_lhs => rw [hdecomp, hcase]
          simp
        have h3 := haa
        rw [ha2] at h3
        simp only [List.dropWhile_cons, hpc, if_true] at h3
        have hlen := congrArg List.length h3
        have hle : ((s1t ++ (a.reverse.takeWhile isPySpace).reverse).dropWhile isPySpace).length
            ≤ (s1t ++ (a.reverse.takeWhile isPySpace).reverse).length :=
          (List.dropWhile_sublist isPySpace).length_le
        simp only [List.length_cons] at hlen
        omega
  calc pyStripList (pyStripList cs)
      = (((pyStripList cs).dropWhile isPySpace).reverse.dropWhile isPySpace).reverse := rfl
    _ = ((pyStripList cs).reverse.dropWhile isPySpace).reverse := by rw [hlead]
    _ = ((a.reverse.dropWhile isPySpace).dropWhile isPySpace).reverse := by
        rw [hs1, List.reverse_reverse]
    _ = (a.reverse.dropWhile isPySpace).reverse := by rw [dropWhile_dropWhile]
    _ = pyStripList cs := by rw [← hs1]

theorem stripList_map_lower (cs : List Char) :
    pyStripList (cs.map lowerChar) = (pyStripList cs).map lowerChar := by
  have hp2 : isPySpace ∘ lowerChar = isPySpace := funext isPySpace_lowerChar
  unfold pyStripList
  simp only [List.dropWhile_map, hp2, ← List.map_reverse]

theorem normalizeStored_idem (s : String) :
    normalizeStored (normalizeStored s) = normalizeStored s := by
  have hff : lowerChar ∘ lowerChar = lowerChar := funext lowerChar_idem
  show String.mk (pyStripList ((pyStripList (s.data.map lowerChar)).map lowerChar))
      = String.mk (pyStripList (s.data.map lowerChar))
  rw [← stripList_map_lower, List.map_map, hff, stripList_idem]

/-- The resulting table of `add_entity` does not depend on the SELECT. -/
theorem addEntity_table (t : EntityTable) (u : Nat) (name ty : String) :
    (addEntity t u name ty).2 = insertOrIgnoreEntity t u (normalizeStored name) ty := by
  unfold addEntity
  simp only []
  cases (insertOrIgnoreEntity t u (normalizeStored name) ty).rows.find?
    (entityKeyMatches u (normalizeStored name) ty) <;> rfl

/-- The resulting table of `add_tag` does not depend on the SELECT. -/
theorem addTag_table (g : TagTable) (u : Nat) (name : String) (color : Option String) :
    (addTag g u name color).2 = insertOrIgnoreTag g u (normalizeStored name) color := by
  unfold addTag
  simp only []
  cases (insertOrIgnoreTag g u (normalizeStored name) color).rows.find?
    (tagKeyMatches u (normalizeStored name)) <;> rfl

/-- Claim C6: every row persisted by `add_entity` or `add_tag` stores the
lowercased, whitespace-trimmed input as its name: a fresh triple/pair
appends exactly the normalized row, and the invariant that every stored
name is a fixed point of normalization is preserved by both operations, so
lookups are case-insensitive by construction and repeated mentions collapse
to one row. -/
theorem names_stored_normalized (t : EntityTable) (g : TagTable) (u : Nat)
    (name ty tagName : String) (color : Option String) :
    (t.rows.any (entityKeyMatches u (normalizeStored name) ty) = false →
      (addEntity t u name ty).2.rows
        = t.rows ++ [⟨t.nextId, u, normalizeStored name, ty⟩])
    ∧ ((∀ r ∈ t.rows, r.ename = normalizeStored r.ename) →
        ∀ r ∈ (addEntity t u name ty).2.rows, r.ename = normalizeStored r.ename)
    ∧ (g.rows.any (tagKeyMatches u (normalizeStored tagName)) = false →
      (addTag g u tagName color).2.rows
        = g.rows ++ [⟨g.nextId, u, normalizeStored tagName, color⟩])
    ∧ ((∀ r ∈ g.rows, r.tname = normalizeStored r.tname) →
        ∀ r ∈ (addTag g u tagName color).2.rows, r.tname = normalizeStored r.tname) := by
  refine ⟨?_, ?_, ?_, ?_⟩
  · intro h
    rw [addEntity_table]
    simp [insertOrIgnoreEntity, h]
  · intro hinv r hr
    rw [addEntity_table] at hr
    unfold insertOrIgnoreEntity at hr
    by_cases hany : t.rows.any (entityKeyMatches u (normalizeStored name) ty) = true
    · rw [if_pos hany] at hr
      exact hinv r hr
    · rw [if_neg hany] at hr
      simp only [List.mem_append, List.mem_singleton] at hr
      cases hr with
      | inl h => exact hinv r h
      | inr h =>
        subst h
        exact (normalizeStored_idem name).symm
  · intro h
    rw [addTag_table]
    simp [insertOrIgnoreTag, h]
  · intro hinv r hr
    rw [addTag_table] at hr
    unfold insertOrIgnoreTag at hr
    by_cases hany : g.rows.any (tagKeyMatches u (normalizeStored tagName)) = true
    · rw [if_pos hany] at hr
      exact hinv r hr
    · rw [if_neg hany] at hr
      simp only [List.mem_append, List.mem_singleton] at hr
      cases hr with
      | inl h => exact hinv r h
      | inr h =>
        subst h
        exact (normalizeStored_idem tagName).symm

/-- Claim C6 (witness): inserting " ВасЯ " into an empty table stores the
single row named "вася", and the normalization invariant holds afterwards. -/
theorem names_stored_normalized_witness :
    normalizeStored (" ВасЯ ") = ("вася")
    ∧ (addEntity ⟨[], 0⟩ 7 (" ВасЯ ") ("person")).2.rows
        = [] ++ [⟨0, 7, normalizeStored (" ВасЯ "), ("person")⟩]
    ∧ (addTag ⟨[], 0⟩ 7 (" ДОМ ") none).2.rows
        = [] ++ [⟨0, 7, normalizeStored (" ДОМ "), none⟩]
    ∧ ∀ r ∈ (addEntity ⟨[], 0⟩ 7 (" ВасЯ ") ("person")).2.rows,
        r.ename = normalizeStored r.ename := by
  refine ⟨by decide, ?_, ?_, ?_⟩
  · exact (names_stored_normalized ⟨[], 0⟩ ⟨[], 0⟩ 7 (" ВасЯ ") ("person") (" ДОМ ") none).1
      (by decide)
  · exact (names_stored_normalized ⟨[], 0⟩ ⟨[], 0⟩ 7 (" ВасЯ ") ("person") (" ДОМ ") none).2.2.1
      (by decide)
  · exact (names_stored_normalized ⟨[], 0⟩ ⟨[], 0⟩ 7 (" ВасЯ ") ("person") (" ДОМ ") none).2.1
      (by intro r hr; cases hr)

/-! ## Fuzzy entity search (`SmartSearchEngine.search_entities`,
smart_search.py 164–265)

The SQL query filters the user's entities by an OR of conditions built from
each keyword's morphological forms (exact `=`, prefix LIKE, substring LIKE,
plus per-word substring conditions for compound names), groups by entity id
with `mention_count = COUNT(entry_entities)` and orders by
`match_priority DESC, mention_count DESC, name`.  The CASE priority uses
only the first keyword.  SQLite's LIKE is case-insensitive on ASCII. -/

/-- ASCII case folding used by SQLite's LIKE. -/
def foldAscii (c : Char) : Char :=
  if 'A' ≤ c && c ≤ 'Z' then Char.ofNat (c.toNat + 32) else c

/-- SQLite LIKE matcher over explicit characters: `%` matches any sequence,
`_` any single character, other characters fold ASCII case.  The fuel is
bounded below by pattern length + string length. -/
def likeAux : Nat → List Char → List Char → Bool
  | 0, _, _ => false
  | _ + 1, [], s => s.isEmpty
  | fuel + 1, '%' :: p, s =>
    likeAux fuel p s ||
      (match s with
       | [] => false
       | _ :: s2 => likeAux fuel ('%' :: p) s2)
  | fuel + 1, '_' :: p, s =>
    (match s with
     | [] => false
     | _ :: s2 => likeAux fuel p s2)
  | fuel + 1, c :: p, s =>
    (match s with
     | [] => false
     | d :: s2 => foldAscii c = foldAscii d && likeAux fuel p s2)

/-- SQLite `x LIKE pattern`. -/
def likeMatch (pat s : String) : Bool :=
  likeAux (pat.length + s.length + 1) pat.data s.data

/-- The `word_normalization` table (smart_search.py 52–60), in source
order. -/
def wordNormalization : List (String × String) :=
  [("васе", "вася"), ("васю", "вася"), ("васи", "вася"),
   ("машине", "машина"), ("машину", "машина"), ("машины", "машина"),
   ("работе", "работа"), ("работу", "работа"), ("работы", "работа"),
   ("встречах", "встреча"), ("встречи", "встреча"), ("встречу", "встреча"),
   ("молоке", "молоко"), ("молока", "молоко"), ("молоко", "молоко"),
   ("напоминания", "напоминание"), ("напоминаний", "напоминание"),
   ("ваби", "ваби саби"), ("саби", "ваби саби")]

/-- `word_normalization.get(w)`. -/
def normLookup (w : String) : Option String :=
  (wordNormalization.find? (fun p => p.1 == w)).map (fun p => p.2)

/-- The keys of `reverse_normalization` (the distinct base forms). -/
def reverseBases : List String :=
  (wordNormalization.map (fun p => p.2)).eraseDups

/-- `reverse_normalization[base]`: for each table pair mapping to `base`,
the surface form followed by the base itself. -/
def allForms (base : String) : List String :=
  wordNormalization.foldl
    (fun acc p => if p.2 == base then acc ++ [p.1, p.2] else acc) []

/-- The `search_forms` set for one normalized keyword: the keyword, its
normalization, and every form family containing it (the source dedups with
`set`, whose order only permutes OR conditions). -/
def searchForms (nkw : String) : List String :=
  ([nkw]
    ++ (match normLookup nkw with
        | some b => [b]
        | none => [])
    ++ ((reverseBases.filter (fun b => (allForms b).contains nkw)).map allForms).flatten
   ).eraseDups

/-- The three conditions generated per form: exact `=`, prefix LIKE,
substring LIKE. -/
def formConds (form nameStr : String) : Bool :=
  nameStr == form
  || likeMatch (form ++ ("%")) nameStr
  || likeMatch (("%") ++ form ++ ("%")) nameStr

/-- The extra per-word substring conditions for compound (multi-word)
keywords. -/
def compoundConds (nkw nameStr : String) : Bool :=
  if nkw.data.contains ' ' then
    (pyWords nkw).any (fun w =>
      likeMatch (("%") ++ w ++ ("%")) nameStr
      || (match normLookup w with
          | some nw => likeMatch (("%") ++ nw ++ ("%")) nameStr
          | none => false))
  else false

/-- All conditions contributed by one raw keyword. -/
def kwConds (kw nameStr : String) : Bool :=
  let nkw := normalizeStored kw
  (searchForms nkw).any (fun f => formConds f nameStr) || compoundConds nkw nameStr

/-- The OR of all search conditions (the `WHERE` disjunction). -/
def whereMatch (keywords : List String) (nameStr : String) : Bool :=
  keywords.any (fun kw => kwConds kw nameStr)

/-- The CASE priority: 3 on exact match with the first keyword, 2 on a
prefix LIKE, 1 otherwise. -/
def matchPriority (kw0 nameStr : String) : Nat :=
  if nameStr = kw0 then 3
  else if likeMatch (kw0 ++ ("%")) nameStr then 2
  else 1

/-- `COUNT(ee.entry_id)` per entity under `GROUP BY e.id`. -/
def mentionCount (links : List (Nat × Nat)) (eid : Nat) : Nat :=
  links.countP (fun l => l.2 = eid)

/-- The ORDER BY relation: match_priority DESC, mention_count DESC,
name ASC (SQLite's BINARY collation is codepoint order, Lean's `≤` on
`String`). -/
def searchLE (kw0 : String) (links : List (Nat × Nat)) (a b : EntityRow) : Prop :=
  matchPriority kw0 a.ename > matchPriority kw0 b.ename
  ∨ (matchPriority kw0 a.ename = matchPriority kw0 b.ename
     ∧ (mentionCount links a.eid > mentionCount links b.eid
        ∨ (mentionCount links a.eid = mentionCount links b.eid ∧ a.ename ≤ b.ename)))

instance (kw0 : String) (links : List (Nat × Nat)) :
    DecidableRel (searchLE kw0 links) := fun a b => by
  unfold searchLE
  infer_instance

theorem searchLE_total (kw0 : String) (links : List (Nat × Nat)) (a b : EntityRow) :
    searchLE kw0 links a b ∨ searchLE kw0 links b a := by
  unfold searchLE
  rcases Nat.lt_trichotomy (matchPriority kw0 a.ename) (matchPriority kw0 b.ename)
    with h1 | h1 | h1
  · exact Or.inr (Or.inl h1)
  · rcases Nat.lt_trichotomy (mentionCount links a.eid) (mentionCount links b.eid)
      with h2 | h2 | h2
    · exact Or.inr (Or.inr ⟨h1.symm, Or.inl h2⟩)
    · rcases le_total a.ename b.ename with h3 | h3
      · exact Or.inl (Or.inr ⟨h1, Or.inr ⟨h2, h3⟩⟩)
      · exact Or.inr (Or.inr ⟨h1.symm, Or.inr ⟨h2.symm, h3⟩⟩)
    · exact Or.inl (Or.inr ⟨h1, Or.inl h2⟩)
  · exact Or.inl (Or.inl h1)

theorem searchLE_trans (kw0 : String) (links : List (Nat × Nat)) (a b c : EntityRow)
    (hab : searchLE kw0 links a b) (hbc : searchLE kw0 links b c) :
    searchLE kw0 links a c := by
  unfold searchLE at hab hbc ⊢
  rcases hab with h1 | ⟨h1, hab2⟩
  · rcases hbc with g1 | ⟨g1, _⟩
    · exact Or.inl (by omega)
    · exact Or.inl (by omega)
  · rcases hbc with g1 | ⟨g1, hbc2⟩
    · exact Or.inl (by omega)
    · refine Or.inr ⟨by omega, ?_⟩
      rcases hab2 with h2 | ⟨h2, h3⟩
      · rcases hbc2 with g2 | ⟨g2, _⟩
        · exact Or.inl (by omega)
        · exact Or.inl (by omega)
      · rcases hbc2 with g2 | ⟨g2, g3⟩
        · exact Or.inl (by omega)
        · exact Or.inr ⟨by omega, le_trans h3 g3⟩

instance (kw0 : String) (links : List (Nat × Nat)) :
    IsTotal EntityRow (searchLE kw0 links) := ⟨searchLE_total kw0 links⟩

instance (kw0 : String) (links : List (Nat × Nat)) :
    IsTrans EntityRow (searchLE kw0 links) :=
  ⟨fun a b c => searchLE_trans kw0 links a b c⟩

/-- The CASE priority's reference keyword: `keywords[0].lower().strip()`,
or the empty string when the keyword list is empty. -/
def searchKw0 (keywords : List String) : String :=
  match keywords with
  | [] => ("")
  | k :: _ => normalizeStored k

/-- The rows surviving the WHERE clause: the user's rows, the optional type
filter, and the OR of all search conditions. -/
def searchPasses (table : List EntityRow) (userId : Nat) (keywords : List String)
    (etypeFilter : Option String) : List EntityRow :=
  table.filter (fun e =>
    e.userId == userId
    && (match etypeFilter with
        | some ty => e.etype == ty
        | none => true)
    && whereMatch keywords e.ename)

/-- Embedding of `SmartSearchEngine.search_entities`: the user's rows (with
the optional type filter) matching the WHERE disjunction, one row per
entity id, sorted by the ORDER BY relation.  SQLite leaves tie order
unspecified; stable insertion sort realizes one compliant ordering. -/
def searchEntitiesResult (table : List EntityRow) (links : List (Nat × Nat))
    (userId : Nat) (keywords : List String) (etypeFilter : Option String) :
    List EntityRow :=
  List.insertionSort (searchLE (searchKw0 keywords) links)
    (searchPasses table userId keywords etypeFilter)

/-- Claim C5: the result list is deduplicated by entity id (given distinct
ids in the store), sorted by (match-priority desc, mention-count desc,
name asc), and an entity whose name exactly equals the first keyword is
ranked strictly above any returned entity for which the keyword is only a
substring of the name. -/
theorem search_entities_ranking (table : List EntityRow) (links : List (Nat × Nat))
    (userId : Nat) (kw : String) (restKw : List String) (ty : Option String)
    (e1 e2 : EntityRow)
    (hids : (table.map (fun e => e.eid)).Nodup)
    (h1 : e1 ∈ searchEntitiesResult table links userId (kw :: restKw) ty)
    (h2 : e2 ∈ searchEntitiesResult table links userId (kw :: restKw) ty)
    (hexact : e1.ename = normalizeStored kw)
    (hsub : hasSub ((normalizeStored kw).data) (e2.ename.data) = true)
    (hne : e2.ename ≠ normalizeStored kw) :
    ((searchEntitiesResult table links userId (kw :: restKw) ty).map (fun e => e.eid)).Nodup
    ∧ (searchEntitiesResult table links userId (kw :: restKw) ty).Sorted
        (searchLE (normalizeStored kw) links)
    ∧ ∀ (i j : Fin (searchEntitiesResult table links userId (kw :: restKw) ty).length),
        (searchEntitiesResult table links userId (kw :: restKw) ty).get i = e1 →
        (searchEntitiesResult table links userId (kw :: restKw) ty).get j = e2 →
        (i : Nat) < (j : Nat) := by
  have hkw0 : searchKw0 (kw :: restKw) = normalizeStored kw := rfl
  have hperm : List.Perm (searchEntitiesResult table links userId (kw :: restKw) ty)
      (searchPasses table userId (kw :: restKw) ty) := by
    unfold searchEntitiesResult
    exact List.perm_insertionSort _ _
  have hsorted : (searchEntitiesResult table links userId (kw :: restKw) ty).Sorted
      (searchLE (normalizeStored kw) links) := by
    unfold searchEntitiesResult
    rw [hkw0]
    exact List.sorted_insertionSort _ _
  refine ⟨?_, hsorted, ?_⟩
  · have hsub2 : List.Sublist (searchPasses table userId (kw :: restKw) ty) table :=
      List.filter_sublist table
    have hnd : ((searchPasses table userId (kw :: restKw) ty).map (fun e => e.eid)).Nodup :=
      List.Nodup.sublist (hsub2.map (fun e => e.eid)) hids
    exact ((hperm.map (fun e => e.eid)).nodup_iff).mpr hnd
  · intro i j hi hj
    have hp1 : matchPriority (normalizeStored kw) e1.ename = 3 := by
      simp [matchPriority, hexact]
    have hp2 : matchPriority (normalizeStored kw) e2.ename ≤ 2 := by
      unfold matchPriority
      rw [if_neg hne]
      by_cases hl : likeMatch (normalizeStored kw ++ ("%")) e2.ename = true
      · rw [if_pos hl]
      · rw [if_neg hl]
        omega
    by_contra hij
    have hji : (j : Nat) ≤ (i : Nat) := Nat.le_of_not_lt hij
    rcases Nat.lt_or_ge (j : Nat) (i : Nat) with hlt | hge
    · have hrel := List.Sorted.rel_get_of_lt hsorted (Fin.lt_def.mpr hlt)
      rw [hi, hj] at hrel
      unfold searchLE at hrel
      rcases hrel with h | ⟨h, _⟩ <;> omega
    · have hijeq : (i : Nat) = (j : Nat) := Nat.le_antisymm hge hji
      have he12 : e1 = e2 := by
        rw [← hi, ← hj]
        congr 1
        exact Fin.ext hijeq
      have : e2.ename = normalizeStored kw := by rw [← he12, hexact]
      exact hne this

/-- Claim C5 (witness): with stored entities "вася" and "супервася" and
first keyword "Вася", both are returned, the exact match is ranked first,
ids are distinct and the list is sorted. -/
theorem search_entities_ranking_witness :
    ((searchEntitiesResult
        [⟨1, 7, ("супервася"), ("person")⟩, ⟨2, 7, ("вася"), ("person")⟩] [] 7
        [("Вася")] none).map (fun e => e.eid)).Nodup
    ∧ (searchEntitiesResult
        [⟨1, 7, ("супервася"), ("person")⟩, ⟨2, 7, ("вася"), ("person")⟩] [] 7
        [("Вася")] none).Sorted (searchLE (normalizeStored ("Вася")) [])
    ∧ ∀ (i j : Fin (searchEntitiesResult
          [⟨1, 7, ("супервася"), ("person")⟩, ⟨2, 7, ("вася"), ("person")⟩] [] 7
          [("Вася")] none).length),
        (searchEntitiesResult
          [⟨1, 7, ("супервася"), ("person")⟩, ⟨2, 7, ("вася"), ("person")⟩] [] 7
          [("Вася")] none).get i = ⟨2, 7, ("вася"), ("person")⟩ →
        (searchEntitiesResult
          [⟨1, 7, ("супервася"), ("person")⟩, ⟨2, 7, ("вася"), ("person")⟩] [] 7
          [("Вася")] none).get j = ⟨1, 7, ("супервася"), ("person")⟩ →
        (i : Nat) < (j : Nat) :=
  search_entities_ranking
    [⟨1, 7, ("супервася"), ("person")⟩, ⟨2, 7, ("вася"), ("person")⟩] [] 7
    ("Вася") [] none ⟨2, 7, ("вася"), ("person")⟩ ⟨1, 7, ("супервася"), ("person")⟩
    (by decide) (by decide) (by decide) (by decide) (by decide) (by decide)

/-! ## Response composer fallback (`SmartTellEngine`, smart_tell.py)

`process_tell_request` routes a query with zero matching entities and zero
matching entries to `_generate_no_data_response` (71–94), which draws one
of three fixed caring templates and one of three fixed suggestions with
`random.choice` and substitutes the extracted topic.  The two PRNG draws
are modelled as explicit `Fin 3` arguments. -/

/-- Python `str.replace` (all occurrences, left to right); the fuel is the
string length, sufficient for a non-empty pattern. -/
def replaceAllAux (pat rep : List Char) : Nat → List Char → List Char
  | 0, s => s
  | _ + 1, [] => []
  | fuel + 1, c :: rest =>
    if pat.isPrefixOf (c :: rest) then
      rep ++ replaceAllAux pat rep fuel ((c :: rest).drop pat.length)
    else c :: replaceAllAux pat rep fuel rest

/-- Python `s.replace(pat, rep)`. -/
def replaceAllStr (s pat rep : String) : String :=
  String.mk (replaceAllAux pat.data rep.data s.data.length s.data)

/-- The stop words of `SmartTellEngine._extract_topic`. -/
def tellStopWords : List String :=
  ["расскажи", "о", "про", "что", "знаешь", "ли", "покажи", "есть"]

/-- Embedding of `_extract_topic`: drop stop words and short words from the
lowercased query, join the first three remaining words. -/
def extractTopic (query : String) : String :=
  let ws := pyWords (pyLower query)
  let topicWords := ws.filter (fun w => !(tellStopWords.contains w) && 2 < w.length)
  match topicWords with
  | [] => ("")
  | _ => String.intercalate (" ") (topicWords.take 3)

/-- The three `no_data` templates of `simple_responses` (smart_tell.py
24–28). -/
def noDataTemplate : Fin 3 → String
  | 0 => ("Пока я ничего не знаю об этом, но я внимательно слушаю и запоминаю все, что ты говоришь! 💭")
  | 1 => ("Моя память об этом пока чиста. Расскажи мне что-нибудь, и я запомню! ✨")
  | 2 => ("Пока у меня нет информации об этом. Но я готова учиться и запоминать! 📚")

/-- The three follow-up suggestions of `_generate_no_data_response`. -/
def noDataSuggestion : Fin 3 → String
  | 0 => ("Расскажи мне что-нибудь об этом!")
  | 1 => ("Поделись историей!")
  | 2 => ("Что бы ты хотел, чтобы я запомнила?")

/-- Embedding of `_generate_no_data_response`: substitute the topic into a
randomly chosen template and append a randomly chosen suggestion.  The
`random.choice` draws are the two `Fin 3` arguments. -/
def generateNoDataResponse (query : String) (tmplChoice suggChoice : Fin 3) : String :=
  let topic := extractTopic query
  let tmpl := noDataTemplate tmplChoice
  let resp :=
    if topic ≠ ("") then replaceAllStr tmpl ("об этом") (("о ") ++ topic) else tmpl
  ("💕 ") ++ resp ++ ("

💡 ") ++ noDataSuggestion suggChoice

/-- Claim C7 (counterexample): the fallback is not run-to-run
deterministic — the same query with zero results produces different texts
under different `random.choice` draws, which is exactly what two runs may
see. -/
theorem no_data_response_counterexample :
    generateNoDataResponse ("расскажи про марс") 0 0
      ≠ generateNoDataResponse ("расскажи про марс") 1 0 := by decide

/-- Claim C7 (amended): for every query and every pair of template and
suggestion draws, the no-data fallback — which never consults the
generative service — returns a non-empty message carrying the fixed caring
prefix, never an empty string. -/
theorem no_data_response_spec (query : String) (tc sc : Fin 3) :
    generateNoDataResponse query tc sc ≠ ("")
    ∧ (generateNoDataResponse query tc sc).data.take 2 = ("💕 ").data := by
  have hdata : (generateNoDataResponse query tc sc).data
      = ("💕 ").data ++
        ((if extractTopic query ≠ ("") then
            replaceAllStr (noDataTemplate tc) ("об этом") (("о ") ++ extractTopic query)
          else noDataTemplate tc)
          ++ ("\n\n💡 ") ++ noDataSuggestion sc).data := by
    unfold generateNoDataResponse
    simp only []
    rfl
  constructor
  · intro h
    have := congrArg String.data h
    rw [hdata] at this
    simp at this
  · rw [hdata]
    rfl

/-! ## Error fallback of the fuzzy search (claim C8)

The whole body of `search_entities` runs inside `try`; any exception from
the store (connection, SQL execution) is caught, logged, and replaced by an
empty result list.  The store access is modelled as an `Except` value. -/

/-- An error raised by the SQLite layer. -/
inductive DbError where
  | sqliteError (msg : String)

/-- `search_entities` with its try/except wrapper: a store error yields
`[]`, a successful fetch yields the pure query result. -/
def searchEntitiesSafe (dbFetch : Except DbError (List EntityRow × List (Nat × Nat)))
    (userId : Nat) (keywords : List String) (ty : Option String) : List EntityRow :=
  match dbFetch with
  | Except.error _ => []
  | Except.ok tl => searchEntitiesResult tl.1 tl.2 userId keywords ty

/-- Claim C8: for every user id, keyword list and type filter, when the
store access raises an error the fuzzy entity search returns the empty
list instead of propagating the exception. -/
theorem search_entities_error_empty
    (dbFetch : Except DbError (List EntityRow × List (Nat × Nat)))
    (userId : Nat) (keywords : List String) (ty : Option String) (e : DbError)
    (h : dbFetch = Except.error e) :
    searchEntitiesSafe dbFetch userId keywords ty = [] := by
  rw [h]
  rfl

/-- Claim C8 (witness): a locked database error on a concrete query yields
the empty list. -/
theorem search_entities_error_empty_witness :
    searchEntitiesSafe (Except.error (DbError.sqliteError ("database is locked")))
      7 [("вася")] none = [] :=
  search_entities_error_empty
    (Except.error (DbError.sqliteError ("database is locked"))) 7 [("вася")] none
    (DbError.sqliteError ("database is locked")) rfl

/-! ## Intent dispatch of `handle_text` (bot.py 387–459, claim C9)

`handle_text` classifies the message and dispatches: search, stats,
insights and reminders branches only read; the greeting branch answers
conversationally (agent reply, or one of three fixed fallback strings) and
explicitly does not persist; only SAVE_INFO / UNKNOWN call
`process_text_entry`, which creates the Entry row and its entities, tags
and reminders. -/

/-- A row of the `entries` table. -/
structure EntryRow where
  entryId : Nat
  userId : Nat
  originalText : String
  sourceType : String
deriving DecidableEq

/-- The persistent state touched by `handle_text`. -/
structure BotState where
  entries : List EntryRow
  entities : EntityTable
  entryEntities : List (Nat × Nat)
  tags : TagTable
  entryTags : List (Nat × Nat)
  reminders : List ReminderRow

/-- The message intents of `IntentClassifier` (UNKNOWN is handled like
SAVE_INFO by the dispatch). -/
inductive IntentKind where
  | saveInfo | searchInfo | showStats | showInsights | showReminders | greeting | unknownIntent
deriving DecidableEq

/-- One candidate entity from the categorization result. -/
structure CatEntity where
  cname : String
  ctype : String

/-- The categorization result consumed by `process_text_entry`. -/
structure CatResult where
  entities : List CatEntity
  tags : List String
  reminders : List String

/-- `db.add_entry`: append the Entry row (id = current count). -/
def dbAddEntry (s : BotState) (u : Nat) (text srcType : String) : Nat × BotState :=
  let eid := s.entries.length
  (eid, { s with entries := s.entries ++ [⟨eid, u, text, srcType⟩] })

/-- Embedding of `process_text_entry` (bot.py 461–554): persist the entry,
its entities with links, its tags with links, and one reminder row per
reminder candidate (trigger resolution is the subject of claims C1/C2). -/
def processTextEntry (s : BotState) (u : Nat) (text : String) (cat : CatResult) : BotState :=
  let es := dbAddEntry s u text ("text")
  let eid := es.1
  let s2 := cat.entities.foldl (fun st ce =>
    let r := addEntity st.entities u ce.cname ce.ctype
    { st with entities := r.2, entryEntities := st.entryEntities ++ [(eid, r.1)] }) es.2
  let s3 := cat.tags.foldl (fun st tg =>
    let r := addTag st.tags u tg none
    { st with tags := r.2, entryTags := st.entryTags ++ [(eid, r.1)] }) s2
  cat.reminders.foldl (fun st rt =>
    { st with reminders := st.reminders ++ [⟨st.reminders.length, u, rt, none⟩] }) s3

/-- The fixed fallback replies of the greeting branch. -/
def greetingFallbackReply (greetingType : String) : String :=
  if greetingType = ("check_presence") then ("Да, я тут, что-то запомнить?")
  else if greetingType = ("nonsense") then ("Извини, не совсем поняла. Повтори, пожалуйста?")
  else ("Привет! Я тебя слушаю :)")

/-- Embedding of the intent dispatch of `handle_text`: the four read-only
branches return their engine's reply unchanged, the greeting branch
answers conversationally without touching the store, and SAVE_INFO /
UNKNOWN persist through `process_text_entry` (whose confirmation text is
abbreviated to its fixed header). -/
def handleTextIntent (s : BotState) (u : Nat) (text : String) (intent : IntentKind)
    (cat : CatResult) (agentReply : Option String) (greetingType : String)
    (searchReply statsReply insightsReply remindersReply : String) : BotState × String :=
  match intent with
  | IntentKind.searchInfo => (s, searchReply)
  | IntentKind.showStats => (s, statsReply)
  | IntentKind.showInsights => (s, insightsReply)
  | IntentKind.showReminders => (s, remindersReply)
  | IntentKind.greeting =>
    (s, match agentReply with
        | some r => r
        | none => greetingFallbackReply greetingType)
  | IntentKind.saveInfo => (processTextEntry s u text cat, ("🧠 Запомнила!"))
  | IntentKind.unknownIntent => (processTextEntry s u text cat, ("🧠 Запомнила!"))

/-- Claim C9: a message classified as GREETING leaves the entries store
unchanged (no Entry row is created; entities, links, tags and reminders
are untouched as well), and a conversational reply is produced: the agent
reply when present, otherwise one of the fixed non-empty fallback
strings. -/
theorem greeting_no_entry (s : BotState) (u : Nat) (text : String) (cat : CatResult)
    (agentReply : Option String) (gt : String) (r1 r2 r3 r4 : String) :
    (handleTextIntent s u text IntentKind.greeting cat agentReply gt r1 r2 r3 r4).1.entries
      = s.entries
    ∧ (handleTextIntent s u text IntentKind.greeting cat agentReply gt r1 r2 r3 r4).1 = s
    ∧ (agentReply = none →
        (handleTextIntent s u text IntentKind.greeting cat agentReply gt r1 r2 r3 r4).2
          = greetingFallbackReply gt)
    ∧ greetingFallbackReply gt ≠ ("") := by
  refine ⟨rfl, rfl, ?_, ?_⟩
  · intro h
    rw [h]
    rfl
  · unfold greetingFallbackReply
    split_ifs <;> decide

/-- Claim C9 (witness): a greeting with no agent configured leaves a
concrete store unchanged and produces the fixed non-empty reply. -/
theorem greeting_no_entry_witness :
    (handleTextIntent ⟨[⟨0, 7, ("привет"), ("text")⟩], ⟨[], 0⟩, [], ⟨[], 0⟩, [], []⟩ 7
        ("привет") IntentKind.greeting ⟨[], [], []⟩ none ("hello") ("a") ("b") ("c") ("d")).1.entries
      = [⟨0, 7, ("привет"), ("text")⟩]
    ∧ (handleTextIntent ⟨[⟨0, 7, ("привет"), ("text")⟩], ⟨[], 0⟩, [], ⟨[], 0⟩, [], []⟩ 7
        ("привет") IntentKind.greeting ⟨[], [], []⟩ none ("hello") ("a") ("b") ("c") ("d")).2
      = greetingFallbackReply ("hello")
    ∧ greetingFallbackReply ("hello") ≠ ("") := by
  refine ⟨?_, ?_, ?_⟩
  · exact (greeting_no_entry ⟨[⟨0, 7, ("привет"), ("text")⟩], ⟨[], 0⟩, [], ⟨[], 0⟩, [], []⟩ 7
      ("привет") ⟨[], [], []⟩ none ("hello") ("a") ("b") ("c") ("d")).1
  · exact (greeting_no_entry ⟨[⟨0, 7, ("привет"), ("text")⟩], ⟨[], 0⟩, [], ⟨[], 0⟩, [], []⟩ 7
      ("привет") ⟨[], [], []⟩ none ("hello") ("a") ("b") ("c") ("d")).2.2.1 rfl
  · exact (greeting_no_entry ⟨[⟨0, 7, ("привет"), ("text")⟩], ⟨[], 0⟩, [], ⟨[], 0⟩, [], []⟩ 7
      ("привет") ⟨[], [], []⟩ none ("hello") ("a") ("b") ("c") ("d")).2.2.2

end Mira
